import Mathlib

/-!
Shallow embedding of the technician-allocation workflow of the auro-repairs
backend: the `Appointment` state machine and its transition methods from
`shop/models.py`, the workload / availability queries on `Employee`, and the
API-facing orchestration functions from `technician_allocation_views.py`.

Timestamps are modelled as natural numbers; each operation that stamps
`timezone.now()` in the source takes the current clock value `now` as an
explicit argument.  The persistent store of appointment rows is modelled as a
`List Appointment`; Django querysets (`filter`, `count`, `get_object_or_404`)
become list filters, lengths and `find?`.
-/

/-- Appointment status values, from the `choices` of `Appointment.status`. -/
inductive Status
  | pending
  | assigned
  | in_progress
  | completed
  | cancelled
deriving DecidableEq, Repr

/-- String form of a status, as stored in the `status` column. -/
def Status.toStr : Status → String
  | .pending => "pending"
  | .assigned => "assigned"
  | .in_progress => "in_progress"
  | .completed => "completed"
  | .cancelled => "cancelled"

/-- One appointment row: the technician-allocation fields of the
`Appointment` model (`id`, `date`, `assigned_technician`, `assigned_at`,
`started_at`, `completed_at`, `status`).  The technician reference is the
employee id, nullable (`SET_NULL`). -/
structure Appointment where
  id : Nat
  date : Nat
  assigned_technician : Option Nat
  assigned_at : Option Nat
  started_at : Option Nat
  completed_at : Option Nat
  status : Status
deriving DecidableEq, Repr

/-- `Appointment.assign_technician`: set the technician, stamp `assigned_at`
with the current time, and move `pending` to `assigned` (any other status is
left unchanged).  Returns the mutated appointment. -/
def Appointment.assign_technician (a : Appointment) (technician : Nat) (now : Nat) :
    Appointment :=
  { a with
      assigned_technician := some technician
      assigned_at := some now
      status := if a.status = Status.pending then Status.assigned else a.status }

/-- `Appointment.start_work`: if a technician is assigned and the status is
`assigned`, stamp `started_at` and move to `in_progress`; otherwise return
the appointment unchanged. -/
def Appointment.start_work (a : Appointment) (now : Nat) : Appointment :=
  if a.assigned_technician.isSome ∧ a.status = Status.assigned then
    { a with started_at := some now, status := Status.in_progress }
  else a

/-- `Appointment.complete_work`: if the status is `in_progress`, stamp
`completed_at` and move to `completed`; otherwise return the appointment
unchanged. -/
def Appointment.complete_work (a : Appointment) (now : Nat) : Appointment :=
  if a.status = Status.in_progress then
    { a with completed_at := some now, status := Status.completed }
  else a

/-- The queryset predicate behind `Employee.current_appointments`:
`assigned_appointments.filter(status__in=["assigned", "in_progress"])`. -/
def isActiveFor (technician : Nat) (a : Appointment) : Bool :=
  a.assigned_technician == some technician &&
    (a.status == Status.assigned || a.status == Status.in_progress)

/-- `Employee.current_appointments` over the appointment store. -/
def current_appointments (store : List Appointment) (technician : Nat) :
    List Appointment :=
  store.filter (isActiveFor technician)

/-- `Employee.workload_count`: `current_appointments.count()`. -/
def workload_count (store : List Appointment) (technician : Nat) : Nat :=
  (current_appointments store technician).length

/-- `Employee.is_available`: `workload_count < 3`. -/
def is_available (store : List Appointment) (technician : Nat) : Bool :=
  workload_count store technician < 3

/-- An employee row: the fields of `Employee` the allocation code reads. -/
structure Employee where
  id : Nat
  name : String
  role : String
deriving DecidableEq, Repr

/-- Whether the character list `needle` is a leading segment of `hay`. -/
def startsWithChars : List Char → List Char → Bool
  | [], _ => true
  | _ :: _, [] => false
  | c :: cs, d :: ds => c == d && startsWithChars cs ds

/-- Whether the character list `needle` occurs contiguously inside `hay`. -/
def containsChars (needle : List Char) : List Char → Bool
  | [] => needle.isEmpty
  | d :: rest => startsWithChars needle (d :: rest) || containsChars needle rest

/-- Case-insensitive substring test, modelling Django `__icontains` and
Python `in` on lowered strings. -/
def icontains (hay needle : String) : Bool :=
  containsChars (needle.toList.map Char.toLower) (hay.toList.map Char.toLower)

/-- `Employee.is_technician`:
`"technician" in role.lower() or "mechanic" in role.lower()`. -/
def Employee.is_technician (e : Employee) : Bool :=
  icontains e.role "technician" || icontains e.role "mechanic"

/-- `get_object_or_404(Appointment, id=appointment_id)` over the store. -/
def findAppt (store : List Appointment) (i : Nat) : Option Appointment :=
  store.find? (fun a => a.id == i)

/-- `appointment.save()` after mutating the row with id `i`. -/
def updateAppt (store : List Appointment) (i : Nat)
    (f : Appointment → Appointment) : List Appointment :=
  store.map (fun a => if a.id == i then f a else a)

/-- Error responses of the allocation views that concern the claims:
object lookup failure and the capacity check, the latter carrying
`current_workload` and `max_workload` exactly as the response body does. -/
inductive ViewError
  | NotFound
  | CapacityExceeded (name : String) (current_workload : Nat) (max_workload : Nat)
deriving DecidableEq, Repr

/-- The `assignment_details` record of the assign-technician response. -/
structure AssignDetails where
  assigned_at : Nat
  status : String
  previous_status : String
deriving DecidableEq, Repr

/-- The view `assign_technician`: look the appointment up, reject with the
capacity payload when the technician is not available, otherwise run the
model method, save, and answer with `assignment_details` whose
`previous_status` field is the literal `"scheduled"` the source hardcodes.
Returns the resulting store together with the response. -/
def assign_technician_view (store : List Appointment) (appointment_id : Nat)
    (technician : Employee) (now : Nat) :
    List Appointment × Except ViewError AssignDetails :=
  match findAppt store appointment_id with
  | none => (store, Except.error ViewError.NotFound)
  | some appt =>
    if is_available store technician.id then
      let appt2 := appt.assign_technician technician.id now
      (updateAppt store appointment_id (fun a => a.assign_technician technician.id now),
       Except.ok
         { assigned_at := now
           status := appt2.status.toStr
           previous_status := "scheduled" })
    else
      (store,
       Except.error
         (ViewError.CapacityExceeded technician.name
           (workload_count store technician.id) 3))

/-- The per-technician record built by the `technician_workload` view. -/
structure TechWorkload where
  technician_id : Nat
  name : String
  role : String
  current_appointments : Nat
  is_available : Bool
  max_capacity : Nat
deriving DecidableEq, Repr

/-- The `summary` block of the `technician_workload` response. -/
structure WorkloadSummary where
  total_technicians : Nat
  available_technicians : Nat
  busy_technicians : Nat
deriving DecidableEq, Repr

/-- The view `technician_workload`: enumerate employees with
`role__icontains="technician"`, build per-technician workload records, and
aggregate totals (`busy = total - available`).  Total function: it succeeds
on every input, including an empty employee table. -/
def technician_workload (employees : List Employee) (store : List Appointment) :
    WorkloadSummary × List TechWorkload :=
  let techs := employees.filter (fun e => icontains e.role "technician")
  let data := techs.map (fun e =>
    { technician_id := e.id
      name := e.name
      role := e.role
      current_appointments := workload_count store e.id
      is_available := is_available store e.id
      max_capacity := 3 : TechWorkload })
  let total := data.length
  let avail := (data.filter (fun d => d.is_available)).length
  ({ total_technicians := total
     available_technicians := avail
     busy_technicians := total - avail }, data)

/-- The three state-machine operations an external caller can drive an
appointment through. -/
inductive Op
  | assign (technician : Nat)
  | start
  | complete
deriving DecidableEq, Repr

/-- Apply one operation to one appointment at clock value `now`. -/
def applyOp (a : Appointment) (op : Op) (now : Nat) : Appointment :=
  match op with
  | .assign t => a.assign_technician t now
  | .start => a.start_work now
  | .complete => a.complete_work now

/-- Run a timed sequence of operations on an appointment. -/
def run : Appointment → List (Op × Nat) → Appointment
  | a, [] => a
  | a, (op, t) :: rest => run (applyOp a op t) rest

/-- A freshly created appointment: status `pending`, no technician, no
timestamps (the model defaults). -/
def freshAppointment (i : Nat) (date : Nat) : Appointment :=
  { id := i
    date := date
    assigned_technician := none
    assigned_at := none
    started_at := none
    completed_at := none
    status := Status.pending }

/-- The clock values of a timed trace never decrease, starting from lower
bound `t`. -/
def chronoFrom : Nat → List (Op × Nat) → Bool
  | _, [] => true
  | t, (_, t') :: rest => decide (t ≤ t') && chronoFrom t' rest

/-- Every `assign` in the trace happens while the appointment is still
`pending` or `assigned` (no reassignment after work has started). -/
def assignEarly : Appointment → List (Op × Nat) → Bool
  | _, [] => true
  | a, (op, t') :: rest =>
    (match op with
     | Op.assign _ => decide (a.status = Status.pending ∨ a.status = Status.assigned)
     | _ => true) && assignEarly (applyOp a op t') rest

/-- An already-set timestamp may stay or grow, never shrink or be cleared. -/
def tsLe (x y : Option Nat) : Bool :=
  match x, y with
  | none, _ => true
  | some _, none => false
  | some v, some w => decide (v ≤ w)

/-- Along the trace, no step decreases (or clears) an already-set
timestamp of the appointment. -/
def noDecrease : Appointment → List (Op × Nat) → Bool
  | _, [] => true
  | a, (op, t') :: rest =>
    tsLe a.assigned_at (applyOp a op t').assigned_at &&
    tsLe a.started_at (applyOp a op t').started_at &&
    tsLe a.completed_at (applyOp a op t').completed_at &&
    noDecrease (applyOp a op t') rest

/-! ### Counting helpers for the derived-workload arguments -/

/-- Updating the row with id `i` changes a `countP` only through that row:
accounting identity relating the count before and after the update. -/
theorem countP_updateAppt (store : List Appointment) (i : Nat)
    (f : Appointment → Appointment) (p : Appointment → Bool) :
    (updateAppt store i f).countP p +
      store.countP (fun a => a.id == i && p a)
    = store.countP p + store.countP (fun a => a.id == i && p (f a)) := by
  induction store with
  | nil => rfl
  | cons a rest ih =>
    by_cases h : (a.id == i) = true
    · have hg : updateAppt (a :: rest) i f = f a :: updateAppt rest i f := by
        unfold updateAppt; rw [List.map_cons, if_pos h]
      rw [hg]
      simp only [List.countP_cons, h, Bool.true_and]
      by_cases hpa : p a = true <;> by_cases hpf : p (f a) = true <;>
        simp [hpa, hpf] <;> omega
    · have h' : (a.id == i) = false := by simpa using h
      have hg : updateAppt (a :: rest) i f = a :: updateAppt rest i f := by
        unfold updateAppt; rw [List.map_cons, if_neg h]
      rw [hg]
      simp only [List.countP_cons, h', Bool.false_and]
      by_cases hpa : p a = true <;> simp [hpa] <;> omega

/-- When `q` holds of exactly one row of the store and that row is `A`, a
conjunctive count collapses to whether `p` holds of `A`. -/
theorem countP_single_elem {α : Type} (l : List α) (q p : α → Bool) (A : α)
    (hmem : A ∈ l) (hqA : q A = true) (hone : l.countP q = 1) :
    l.countP (fun a => q a && p a) = if p A then 1 else 0 := by
  induction l with
  | nil => cases hmem
  | cons b rest ih =>
    rw [List.countP_cons] at hone ⊢
    by_cases hqb : q b = true
    · have hrest : rest.countP q = 0 := by
        rw [if_pos hqb] at hone; omega
      have hAb : A = b := by
        rcases List.mem_cons.mp hmem with h | h
        · exact h
        · exact absurd (List.countP_pos_iff.mpr ⟨A, h, hqA⟩) (by omega)
      have hle : rest.countP (fun a => q a && p a) ≤ rest.countP q :=
        List.countP_mono_left (by
          intro x _ hx
          exact (Bool.and_eq_true _ _ |>.mp hx).1)
      have hsub : rest.countP (fun a => q a && p a) = 0 := by omega
      subst hAb
      simp only [hqb, Bool.true_and, hsub, Nat.zero_add]
    · have hqb' : q b = false := by simpa using hqb
      have hbA : ¬ (A = b) := fun h => by rw [h, hqb'] at hqA; cases hqA
      have hA : A ∈ rest := by
        rcases List.mem_cons.mp hmem with h | h
        · exact absurd h hbA
        · exact h
      have hone' : rest.countP q = 1 := by
        rw [if_neg hqb] at hone; omega
      rw [if_neg (by simp [hqb']), Nat.add_zero, ih hA hone']

/-- When `q` holds of exactly one row and `A` is such a row, any other row
satisfying `q` is `A` itself. -/
theorem countP_one_unique {α : Type} (l : List α) (q : α → Bool) (A B : α)
    (hA : A ∈ l) (hqA : q A = true) (hone : l.countP q = 1)
    (hB : B ∈ l) (hqB : q B = true) : B = A := by
  induction l with
  | nil => cases hA
  | cons b rest ih =>
    rw [List.countP_cons] at hone
    by_cases hqb : q b = true
    · have hrest : rest.countP q = 0 := by
        rw [if_pos hqb] at hone; omega
      have hAb : A = b := by
        rcases List.mem_cons.mp hA with h | h
        · exact h
        · exact absurd (List.countP_pos_iff.mpr ⟨A, h, hqA⟩) (by omega)
      have hBb : B = b := by
        rcases List.mem_cons.mp hB with h | h
        · exact h
        · exact absurd (List.countP_pos_iff.mpr ⟨B, h, hqB⟩) (by omega)
      rw [hAb, hBb]
    · have hone' : rest.countP q = 1 := by
        rw [if_neg hqb] at hone; omega
      have hA' : A ∈ rest := by
        rcases List.mem_cons.mp hA with h | h
        · exact absurd (h ▸ hqA) hqb
        · exact h
      have hB' : B ∈ rest := by
        rcases List.mem_cons.mp hB with h | h
        · exact absurd (h ▸ hqB) hqb
        · exact h
      exact ih hA' hone' hB'

/-- `workload_count` is a `countP`. -/
theorem workload_count_eq_countP (store : List Appointment) (technician : Nat) :
    workload_count store technician = store.countP (isActiveFor technician) := by
  simp [workload_count, current_appointments, List.countP_eq_length_filter]

/-- An update through a function that preserves ids preserves the count of
rows with a given id. -/
theorem countP_id_updateAppt (store : List Appointment) (i : Nat)
    (f : Appointment → Appointment) (hf : ∀ a, (f a).id = a.id) :
    (updateAppt store i f).countP (fun a => a.id == i)
      = store.countP (fun a => a.id == i) := by
  have h := countP_updateAppt store i f (fun a => a.id == i)
  simp only [hf, Bool.and_self] at h
  omega

/-- Membership in an updated store: every row comes from a row of the
original store, updated when its id matches. -/
theorem mem_updateAppt (store : List Appointment) (i : Nat)
    (f : Appointment → Appointment) (b : Appointment)
    (hb : b ∈ updateAppt store i f) :
    ∃ a ∈ store, b = if a.id == i then f a else a := by
  rcases List.mem_map.mp hb with ⟨a, ha, rfl⟩
  exact ⟨a, ha, rfl⟩

/-- The updated image of a matching row is in the updated store. -/
theorem updateAppt_mem_of_mem (store : List Appointment) (i : Nat)
    (f : Appointment → Appointment) (a : Appointment)
    (ha : a ∈ store) (hid : a.id = i) : f a ∈ updateAppt store i f := by
  have : (if a.id == i then f a else a) ∈ updateAppt store i f :=
    List.mem_map_of_mem _ ha
  simpa [hid] using this

/-! ### Lifecycle invariant for the appointment state machine -/

/-- Every value an optional timestamp holds is at most `t`. -/
def tsBound (x : Option Nat) (t : Nat) : Prop :=
  ∀ v, x = some v → v ≤ t

theorem tsBound_mono (x : Option Nat) (t t' : Nat) (h : tsBound x t) (ht : t ≤ t') :
    tsBound x t' :=
  fun v hv => Nat.le_trans (h v hv) ht

theorem tsBound_stamp (t' : Nat) : tsBound (some t') t' := by
  intro v hv
  cases hv
  exact Nat.le_refl _

theorem tsLe_refl (x : Option Nat) : tsLe x x = true := by
  cases x <;> simp [tsLe]

theorem tsLe_stamp (x : Option Nat) (t t' : Nat) (h : tsBound x t) (ht : t ≤ t') :
    tsLe x (some t') = true := by
  cases x with
  | none => rfl
  | some v =>
    simp only [tsLe, decide_eq_true_eq]
    exact Nat.le_trans (h v rfl) ht

/-- Invariant of states reachable from a fresh appointment by traces whose
`assign` steps happen before work starts: the clock bounds every stamped
timestamp, `cancelled` is unreachable, and each status carries exactly the
timestamps its history has stamped, in order. -/
def LifecycleInv (a : Appointment) (t : Nat) : Prop :=
  tsBound a.assigned_at t ∧ tsBound a.started_at t ∧ tsBound a.completed_at t ∧
  a.status ≠ Status.cancelled ∧
  (a.status = Status.assigned → ∃ ta, a.assigned_at = some ta) ∧
  ((a.status = Status.pending ∨ a.status = Status.assigned) →
    a.started_at = none ∧ a.completed_at = none) ∧
  (a.status = Status.in_progress →
    ∃ ta ts, a.assigned_at = some ta ∧ a.started_at = some ts ∧ ta ≤ ts ∧
      a.completed_at = none) ∧
  (a.status = Status.completed →
    ∃ ta ts tc, a.assigned_at = some ta ∧ a.started_at = some ts ∧
      a.completed_at = some tc ∧ ta ≤ ts ∧ ts ≤ tc)

theorem LifecycleInv_mono (a : Appointment) (t t' : Nat) (h : LifecycleInv a t) (ht : t ≤ t') :
    LifecycleInv a t' := by
  obtain ⟨h1, h2, h3, h4, h5, h6, h7, h8⟩ := h
  exact ⟨tsBound_mono _ _ _ h1 ht, tsBound_mono _ _ _ h2 ht, tsBound_mono _ _ _ h3 ht,
    h4, h5, h6, h7, h8⟩

theorem LifecycleInv_fresh (i date : Nat) : LifecycleInv (freshAppointment i date) 0 := by
  refine ⟨?_, ?_, ?_, ?_, ?_, ?_, ?_, ?_⟩ <;>
    simp [freshAppointment, tsBound]

/-- One step preserves the invariant, provided `assign` steps only happen
while the status is still `pending` or `assigned`. -/
theorem LifecycleInv_applyOp (a : Appointment) (op : Op) (t t' : Nat) (h : LifecycleInv a t)
    (ht : t ≤ t')
    (hop : ∀ tech, op = Op.assign tech →
      a.status = Status.pending ∨ a.status = Status.assigned) :
    LifecycleInv (applyOp a op t') t' := by
  obtain ⟨hb1, hb2, hb3, hcan, hasg, hpa, hip, hcp⟩ := h
  cases op with
  | assign tech =>
    have hst := hop tech rfl
    have hnone := hpa hst
    have hstat :
        (applyOp a (Op.assign tech) t').status = Status.assigned := by
      rcases hst with h | h <;>
        simp [applyOp, Appointment.assign_technician, h]
    refine ⟨?_, ?_, ?_, ?_, ?_, ?_, ?_, ?_⟩
    · exact tsBound_stamp t'
    · exact tsBound_mono _ _ _ hb2 ht
    · exact tsBound_mono _ _ _ hb3 ht
    · rw [hstat]; intro hc; cases hc
    · intro _; exact ⟨t', rfl⟩
    · intro _; exact ⟨hnone.1, hnone.2⟩
    · rw [hstat]; intro hc; cases hc
    · rw [hstat]; intro hc; cases hc
  | start =>
    by_cases hcond : a.assigned_technician.isSome ∧ a.status = Status.assigned
    · have e : applyOp a Op.start t' =
          { a with started_at := some t', status := Status.in_progress } := by
        simp [applyOp, Appointment.start_work, hcond]
      obtain ⟨ta, hta⟩ := hasg hcond.2
      have hnone := hpa (Or.inr hcond.2)
      rw [e]
      refine ⟨?_, ?_, ?_, ?_, ?_, ?_, ?_, ?_⟩
      · exact tsBound_mono _ _ _ hb1 ht
      · exact tsBound_stamp t'
      · exact tsBound_mono _ _ _ hb3 ht
      · intro hc; cases hc
      · intro hc; cases hc
      · intro hc; rcases hc with hc | hc <;> cases hc
      · intro _
        exact ⟨ta, t', hta, rfl, Nat.le_trans (hb1 ta hta) ht, hnone.2⟩
      · intro hc; cases hc
    · have e : applyOp a Op.start t' = a := by
        simp only [applyOp, Appointment.start_work, if_neg hcond]
      rw [e]
      exact LifecycleInv_mono a t t' ⟨hb1, hb2, hb3, hcan, hasg, hpa, hip, hcp⟩ ht
  | complete =>
    by_cases hcond : a.status = Status.in_progress
    · have e : applyOp a Op.complete t' =
          { a with completed_at := some t', status := Status.completed } := by
        simp [applyOp, Appointment.complete_work, hcond]
      obtain ⟨ta, ts, hta, hts, hle, _⟩ := hip hcond
      rw [e]
      refine ⟨?_, ?_, ?_, ?_, ?_, ?_, ?_, ?_⟩
      · exact tsBound_mono _ _ _ hb1 ht
      · exact tsBound_mono _ _ _ hb2 ht
      · exact tsBound_stamp t'
      · intro hc; cases hc
      · intro hc; cases hc
      · intro hc; rcases hc with hc | hc <;> cases hc
      · intro hc; cases hc
      · intro _
        exact ⟨ta, ts, t', hta, hts, rfl, hle, Nat.le_trans (hb2 ts hts) ht⟩
    · have e : applyOp a Op.complete t' = a := by
        simp only [applyOp, Appointment.complete_work, if_neg hcond]
      rw [e]
      exact LifecycleInv_mono a t t' ⟨hb1, hb2, hb3, hcan, hasg, hpa, hip, hcp⟩ ht

/-- The clock value after running a timed trace. -/
def finalTime : Nat → List (Op × Nat) → Nat
  | t, [] => t
  | _, (_, t') :: rest => finalTime t' rest

/-- Running a chronological, assign-early trace preserves the invariant. -/
theorem LifecycleInv_run (tr : List (Op × Nat)) : ∀ (a : Appointment) (t : Nat),
    LifecycleInv a t → chronoFrom t tr = true → assignEarly a tr = true →
    LifecycleInv (run a tr) (finalTime t tr) := by
  induction tr with
  | nil => intro a t h _ _; exact h
  | cons step rest ih =>
    intro a t h hch hae
    obtain ⟨op, t'⟩ := step
    simp only [chronoFrom, Bool.and_eq_true, decide_eq_true_eq] at hch
    simp only [assignEarly, Bool.and_eq_true] at hae
    refine ih _ _ (LifecycleInv_applyOp a op t t' h hch.1 ?_) hch.2 hae.2
    intro tech hop
    subst hop
    simpa using hae.1

/-- Along any chronological trace, no step decreases or clears a timestamp
that is already set. -/
theorem noDecrease_run (tr : List (Op × Nat)) : ∀ (a : Appointment) (t : Nat),
    tsBound a.assigned_at t → tsBound a.started_at t → tsBound a.completed_at t →
    chronoFrom t tr = true → noDecrease a tr = true := by
  induction tr with
  | nil => intros; rfl
  | cons step rest ih =>
    intro a t h1 h2 h3 hch
    obtain ⟨op, t'⟩ := step
    simp only [chronoFrom, Bool.and_eq_true, decide_eq_true_eq] at hch
    obtain ⟨htt, hch'⟩ := hch
    simp only [noDecrease, Bool.and_eq_true]
    cases op with
    | assign tech =>
      have e : applyOp a (Op.assign tech) t' =
          { a with assigned_technician := some tech, assigned_at := some t',
                   status := if a.status = Status.pending then Status.assigned
                             else a.status } := rfl
      rw [e]
      exact ⟨⟨⟨tsLe_stamp _ _ _ h1 htt, tsLe_refl _⟩, tsLe_refl _⟩,
        ih _ t' (tsBound_stamp t') (tsBound_mono _ _ _ h2 htt)
          (tsBound_mono _ _ _ h3 htt) hch'⟩
    | start =>
      by_cases hcond : a.assigned_technician.isSome ∧ a.status = Status.assigned
      · have e : applyOp a Op.start t' =
            { a with started_at := some t', status := Status.in_progress } := by
          simp [applyOp, Appointment.start_work, hcond]
        rw [e]
        exact ⟨⟨⟨tsLe_refl _, tsLe_stamp _ _ _ h2 htt⟩, tsLe_refl _⟩,
          ih _ t' (tsBound_mono _ _ _ h1 htt) (tsBound_stamp t')
            (tsBound_mono _ _ _ h3 htt) hch'⟩
      · have e : applyOp a Op.start t' = a := by
          simp only [applyOp, Appointment.start_work, if_neg hcond]
        rw [e]
        exact ⟨⟨⟨tsLe_refl _, tsLe_refl _⟩, tsLe_refl _⟩,
          ih _ t' (tsBound_mono _ _ _ h1 htt) (tsBound_mono _ _ _ h2 htt)
            (tsBound_mono _ _ _ h3 htt) hch'⟩
    | complete =>
      by_cases hcond : a.status = Status.in_progress
      · have e : applyOp a Op.complete t' =
            { a with completed_at := some t', status := Status.completed } := by
          simp [applyOp, Appointment.complete_work, hcond]
        rw [e]
        exact ⟨⟨⟨tsLe_refl _, tsLe_refl _⟩, tsLe_stamp _ _ _ h3 htt⟩,
          ih _ t' (tsBound_mono _ _ _ h1 htt) (tsBound_mono _ _ _ h2 htt)
            (tsBound_stamp t') hch'⟩
      · have e : applyOp a Op.complete t' = a := by
          simp only [applyOp, Appointment.complete_work, if_neg hcond]
        rw [e]
        exact ⟨⟨⟨tsLe_refl _, tsLe_refl _⟩, tsLe_refl _⟩,
          ih _ t' (tsBound_mono _ _ _ h1 htt) (tsBound_mono _ _ _ h2 htt)
            (tsBound_mono _ _ _ h3 htt) hch'⟩

/-! ### Claim theorems -/

/-- The `isActiveFor` predicate spelt as a proposition. -/
theorem isActiveFor_iff (technician : Nat) (a : Appointment) :
    isActiveFor technician a = true ↔
      (a.assigned_technician = some technician ∧
        (a.status = Status.assigned ∨ a.status = Status.in_progress)) := by
  simp [isActiveFor]

/-- C2: `is_available` returns true exactly when the number of appointments
with `assigned_technician` equal to that technician and status in
{assigned, in_progress} is strictly less than 3; with exactly 3 such active
appointments the technician is not available, with 2 they are available. -/
theorem C2_availability_boundary (store : List Appointment) (technician : Nat) :
    (is_available store technician = true ↔
      (store.filter (fun a =>
        decide (a.assigned_technician = some technician ∧
          (a.status = Status.assigned ∨ a.status = Status.in_progress)))).length < 3) ∧
    ((store.filter (fun a =>
        decide (a.assigned_technician = some technician ∧
          (a.status = Status.assigned ∨ a.status = Status.in_progress)))).length = 3 →
      is_available store technician = false) ∧
    ((store.filter (fun a =>
        decide (a.assigned_technician = some technician ∧
          (a.status = Status.assigned ∨ a.status = Status.in_progress)))).length = 2 →
      is_available store technician = true) := by
  have hfe : store.filter (fun a =>
        decide (a.assigned_technician = some technician ∧
          (a.status = Status.assigned ∨ a.status = Status.in_progress)))
      = store.filter (isActiveFor technician) := by
    apply List.filter_congr
    intro x _
    rw [Bool.eq_iff_iff]
    simp [isActiveFor]
  have hcount : workload_count store technician =
      (store.filter (fun a =>
        decide (a.assigned_technician = some technician ∧
          (a.status = Status.assigned ∨ a.status = Status.in_progress)))).length := by
    rw [hfe]
    rfl
  refine ⟨?_, ?_, ?_⟩
  · rw [is_available, ← hcount]
    simp
  · intro h
    rw [is_available, ← hcount] at *
    simp only [decide_eq_false_iff_not]
    omega
  · intro h
    rw [is_available, ← hcount] at *
    simp only [decide_eq_true_eq]
    omega

/-- Closed instance of C2 at the availability boundary: a technician with 3
active appointments is unavailable, with 2 is available. -/
theorem C2_availability_boundary_witness :
    is_available
      [⟨1, 0, some 1, none, none, none, Status.assigned⟩,
       ⟨2, 0, some 1, none, none, none, Status.in_progress⟩,
       ⟨3, 0, some 1, none, none, none, Status.assigned⟩] 1 = false ∧
    is_available
      [⟨1, 0, some 2, none, none, none, Status.assigned⟩,
       ⟨2, 0, some 2, none, none, none, Status.in_progress⟩] 2 = true :=
  ⟨(C2_availability_boundary
      [⟨1, 0, some 1, none, none, none, Status.assigned⟩,
       ⟨2, 0, some 1, none, none, none, Status.in_progress⟩,
       ⟨3, 0, some 1, none, none, none, Status.assigned⟩] 1).2.1 (by decide),
   (C2_availability_boundary
      [⟨1, 0, some 2, none, none, none, Status.assigned⟩,
       ⟨2, 0, some 2, none, none, none, Status.in_progress⟩] 2).2.2 (by decide)⟩

/-- C3: a successful assign sets the technician, stamps `assigned_at` with
the current time, transitions `pending` to `assigned`, leaves the status
unchanged on reassignment of an already-`assigned` appointment, leaves the
other timestamps untouched, and returns the mutated appointment. -/
theorem C3_assign_effects (a : Appointment) (technician now : Nat) :
    (a.assign_technician technician now).assigned_technician = some technician ∧
    (a.assign_technician technician now).assigned_at = some now ∧
    (a.status = Status.pending →
      (a.assign_technician technician now).status = Status.assigned) ∧
    (a.status = Status.assigned →
      (a.assign_technician technician now).status = a.status) ∧
    (a.assign_technician technician now).started_at = a.started_at ∧
    (a.assign_technician technician now).completed_at = a.completed_at := by
  refine ⟨rfl, rfl, ?_, ?_, rfl, rfl⟩
  · intro h
    simp [Appointment.assign_technician, h]
  · intro h
    simp [Appointment.assign_technician, h]

/-- Closed instance of C3: first assignment of a pending appointment and
reassignment of an assigned one. -/
theorem C3_assign_effects_witness :
    (Appointment.assign_technician ⟨1, 0, none, none, none, none, Status.pending⟩ 5 7).status
      = Status.assigned ∧
    (Appointment.assign_technician
        ⟨2, 0, some 4, some 3, none, none, Status.assigned⟩ 5 7).status
      = (⟨2, 0, some 4, some 3, none, none, Status.assigned⟩ : Appointment).status :=
  ⟨(C3_assign_effects ⟨1, 0, none, none, none, none, Status.pending⟩ 5 7).2.2.1 rfl,
   (C3_assign_effects ⟨2, 0, some 4, some 3, none, none, Status.assigned⟩ 5 7).2.2.2.1 rfl⟩

/-- C5: `start_work` stamps `started_at` and moves to `in_progress` exactly
when a technician is assigned and the status is exactly `assigned`; in every
other state it returns the appointment with status and all timestamps
unchanged. -/
theorem C5_startWork_noop_safety (a : Appointment) (now : Nat) :
    (a.assigned_technician.isSome ∧ a.status = Status.assigned →
      (a.start_work now).started_at = some now ∧
      (a.start_work now).status = Status.in_progress ∧
      (a.start_work now).assigned_at = a.assigned_at ∧
      (a.start_work now).completed_at = a.completed_at ∧
      (a.start_work now).assigned_technician = a.assigned_technician) ∧
    (¬(a.assigned_technician.isSome ∧ a.status = Status.assigned) →
      a.start_work now = a) := by
  constructor
  · intro h
    simp only [Appointment.start_work, if_pos h]
    refine ⟨?_, ?_, ?_, ?_, ?_⟩ <;> trivial
  · intro h
    simp only [Appointment.start_work, if_neg h]

/-- Closed instance of C5: the success branch on an assigned appointment and
the no-op branch on a pending appointment. -/
theorem C5_startWork_noop_safety_witness :
    (Appointment.start_work ⟨1, 0, some 4, some 3, none, none, Status.assigned⟩ 9).status
      = Status.in_progress ∧
    Appointment.start_work ⟨2, 0, none, none, none, none, Status.pending⟩ 9
      = ⟨2, 0, none, none, none, none, Status.pending⟩ :=
  ⟨((C5_startWork_noop_safety ⟨1, 0, some 4, some 3, none, none, Status.assigned⟩ 9).1
      (by exact ⟨rfl, rfl⟩)).2.1,
   (C5_startWork_noop_safety ⟨2, 0, none, none, none, none, Status.pending⟩ 9).2
      (by simp)⟩

/-- Reduction of the assign view once the appointment lookup succeeds. -/
theorem assign_view_eq (store : List Appointment) (appointment_id : Nat)
    (technician : Employee) (now : Nat) (appt : Appointment)
    (hfind : findAppt store appointment_id = some appt) :
    assign_technician_view store appointment_id technician now =
      if is_available store technician.id then
        (updateAppt store appointment_id
           (fun a => a.assign_technician technician.id now),
         Except.ok
           { assigned_at := now
             status := (appt.assign_technician technician.id now).status.toStr
             previous_status := "scheduled" })
      else
        (store,
         Except.error
           (ViewError.CapacityExceeded technician.name
             (workload_count store technician.id) 3)) := by
  unfold assign_technician_view
  rw [hfind]

/-- C1: the assign-technician operation fails with the capacity payload
(current load, limit 3) and leaves the store untouched exactly when the
technician's current load is at least 3; when the load is below 3 the
assignment proceeds. -/
theorem C1_capacity_gate (store : List Appointment) (appointment_id : Nat)
    (technician : Employee) (now : Nat) (appt : Appointment)
    (hfind : findAppt store appointment_id = some appt) :
    (((assign_technician_view store appointment_id technician now).2 =
        Except.error (ViewError.CapacityExceeded technician.name
          (workload_count store technician.id) 3) ∧
      (assign_technician_view store appointment_id technician now).1 = store) ↔
      3 ≤ workload_count store technician.id) ∧
    (workload_count store technician.id < 3 →
      ∃ d, (assign_technician_view store appointment_id technician now).2 =
        Except.ok d) := by
  rw [assign_view_eq store appointment_id technician now appt hfind]
  by_cases hav : is_available store technician.id = true
  · have hlt : workload_count store technician.id < 3 := by
      simpa [is_available] using hav
    rw [if_pos hav]
    constructor
    · constructor
      · rintro ⟨h, -⟩
        cases h
      · intro h
        omega
    · intro _
      exact ⟨_, rfl⟩
  · have hge : 3 ≤ workload_count store technician.id := by
      have := (Bool.not_eq_true _).mp hav
      simp only [is_available, decide_eq_false_iff_not] at this
      omega
    rw [if_neg hav]
    refine ⟨⟨fun _ => hge, fun _ => ⟨rfl, rfl⟩⟩, fun h => absurd h (by omega)⟩

/-- Closed instance of C1: a technician with 3 active jobs is rejected with
the capacity payload and the store is unchanged; the rejection is exactly
the at-capacity case. -/
theorem C1_capacity_gate_witness :
    findAppt
      [⟨1, 0, some 5, none, none, none, Status.assigned⟩,
       ⟨2, 0, some 5, none, none, none, Status.assigned⟩,
       ⟨3, 0, some 5, none, none, none, Status.in_progress⟩,
       ⟨4, 0, none, none, none, none, Status.pending⟩] 4 =
      some ⟨4, 0, none, none, none, none, Status.pending⟩ ∧
    (((assign_technician_view
        [⟨1, 0, some 5, none, none, none, Status.assigned⟩,
         ⟨2, 0, some 5, none, none, none, Status.assigned⟩,
         ⟨3, 0, some 5, none, none, none, Status.in_progress⟩,
         ⟨4, 0, none, none, none, none, Status.pending⟩] 4 ⟨5, "Ann", "Technician"⟩ 9).2 =
        Except.error (ViewError.CapacityExceeded "Ann"
          (workload_count
            [⟨1, 0, some 5, none, none, none, Status.assigned⟩,
             ⟨2, 0, some 5, none, none, none, Status.assigned⟩,
             ⟨3, 0, some 5, none, none, none, Status.in_progress⟩,
             ⟨4, 0, none, none, none, none, Status.pending⟩] 5) 3) ∧
      (assign_technician_view
        [⟨1, 0, some 5, none, none, none, Status.assigned⟩,
         ⟨2, 0, some 5, none, none, none, Status.assigned⟩,
         ⟨3, 0, some 5, none, none, none, Status.in_progress⟩,
         ⟨4, 0, none, none, none, none, Status.pending⟩] 4 ⟨5, "Ann", "Technician"⟩ 9).1 =
        [⟨1, 0, some 5, none, none, none, Status.assigned⟩,
         ⟨2, 0, some 5, none, none, none, Status.assigned⟩,
         ⟨3, 0, some 5, none, none, none, Status.in_progress⟩,
         ⟨4, 0, none, none, none, none, Status.pending⟩]) ↔
      3 ≤ workload_count
            [⟨1, 0, some 5, none, none, none, Status.assigned⟩,
             ⟨2, 0, some 5, none, none, none, Status.assigned⟩,
             ⟨3, 0, some 5, none, none, none, Status.in_progress⟩,
             ⟨4, 0, none, none, none, none, Status.pending⟩] 5) :=
  ⟨by decide,
   (C1_capacity_gate
      [⟨1, 0, some 5, none, none, none, Status.assigned⟩,
       ⟨2, 0, some 5, none, none, none, Status.assigned⟩,
       ⟨3, 0, some 5, none, none, none, Status.in_progress⟩,
       ⟨4, 0, none, none, none, none, Status.pending⟩] 4 ⟨5, "Ann", "Technician"⟩ 9
      ⟨4, 0, none, none, none, none, Status.pending⟩ (by decide)).1⟩

/-- C9: the assign view reports `previous_status` as the hardcoded literal
`"scheduled"` even when the appointment's actual status immediately before
the call was `assigned` (a reassignment), diverging from the documented
contract that the field holds the actual prior status. -/
theorem C9_previous_status_eval :
    ((assign_technician_view
        [⟨1, 0, some 7, some 5, none, none, Status.assigned⟩]
        1 ⟨9, "Sue", "Technician"⟩ 10).2.toOption).map
        (fun d => d.previous_status) = some "scheduled" ∧
    (⟨1, 0, some 7, some 5, none, none, Status.assigned⟩ : Appointment).status.toStr
      = "assigned" ∧
    "scheduled" ≠ "assigned" := by
  refine ⟨by decide, by decide, by decide⟩

/-- C6: `complete_work` stamps `completed_at` and moves to `completed`
exactly when the status is `in_progress` (otherwise a no-op), and a
successful completion decreases the assigned technician's current load by
one, because completed appointments leave the active-load count. -/
theorem C6_completeWork_frees_capacity (a : Appointment) (now : Nat)
    (store : List Appointment) (i T : Nat) (A : Appointment) (now2 : Nat)
    (hmem : A ∈ store) (hid : A.id = i)
    (hone : store.countP (fun x => x.id == i) = 1)
    (hstat : A.status = Status.in_progress)
    (htech : A.assigned_technician = some T) :
    (a.status = Status.in_progress →
      (a.complete_work now).completed_at = some now ∧
      (a.complete_work now).status = Status.completed ∧
      (a.complete_work now).assigned_at = a.assigned_at ∧
      (a.complete_work now).started_at = a.started_at ∧
      (a.complete_work now).assigned_technician = a.assigned_technician) ∧
    (a.status ≠ Status.in_progress → a.complete_work now = a) ∧
    workload_count (updateAppt store i (fun x => x.complete_work now2)) T + 1 =
      workload_count store T := by
  refine ⟨?_, ?_, ?_⟩
  · intro h
    simp only [Appointment.complete_work, if_pos h]
    refine ⟨?_, ?_, ?_, ?_, ?_⟩ <;> trivial
  · intro h
    simp only [Appointment.complete_work, if_neg h]
  · have hkey := countP_updateAppt store i (fun x => x.complete_work now2)
      (isActiveFor T)
    simp only [] at hkey
    have h1 : store.countP (fun x => x.id == i && isActiveFor T x) = 1 := by
      rw [countP_single_elem store (fun x => x.id == i) (isActiveFor T) A hmem
        (by simp [hid]) hone]
      simp [isActiveFor, htech, hstat]
    have h2 : store.countP
        (fun x => x.id == i && isActiveFor T (x.complete_work now2)) = 0 := by
      rw [countP_single_elem store (fun x => x.id == i)
        (fun x => isActiveFor T (x.complete_work now2)) A hmem (by simp [hid]) hone]
      simp [Appointment.complete_work, hstat, isActiveFor]
    rw [workload_count_eq_countP, workload_count_eq_countP]
    omega

/-- Closed instance of C6: completing the only in-progress job of
technician 4 drops their load from 1 to 0. -/
theorem C6_completeWork_frees_capacity_witness :
    workload_count
      (updateAppt [⟨1, 0, some 4, some 1, some 2, none, Status.in_progress⟩] 1
        (fun x => x.complete_work 9)) 4 + 1 =
    workload_count [⟨1, 0, some 4, some 1, some 2, none, Status.in_progress⟩] 4 :=
  (C6_completeWork_frees_capacity
    ⟨1, 0, some 4, some 1, some 2, none, Status.in_progress⟩ 0
    [⟨1, 0, some 4, some 1, some 2, none, Status.in_progress⟩] 1 4
    ⟨1, 0, some 4, some 1, some 2, none, Status.in_progress⟩ 9
    (by decide) (by decide) (by decide) (by decide) (by decide)).2.2

/-- C7: for an appointment in the `assigned` state with a unique id in the
store, assigning it to X and then to Y leaves X's load one lower and Y's
load one higher than after the first assignment, with the stored row's
technician equal to Y — with no explicit counter mutation, purely through
the derived count. -/
theorem C7_reassignment_load (store : List Appointment) (i X Y : Nat)
    (A : Appointment) (n1 n2 : Nat) (hmem : A ∈ store) (hid : A.id = i)
    (hstat : A.status = Status.assigned)
    (hone : store.countP (fun x => x.id == i) = 1) (hXY : X ≠ Y) :
    workload_count
        (updateAppt (updateAppt store i (fun x => x.assign_technician X n1)) i
          (fun x => x.assign_technician Y n2)) X + 1 =
      workload_count (updateAppt store i (fun x => x.assign_technician X n1)) X ∧
    workload_count
        (updateAppt (updateAppt store i (fun x => x.assign_technician X n1)) i
          (fun x => x.assign_technician Y n2)) Y =
      workload_count (updateAppt store i (fun x => x.assign_technician X n1)) Y + 1 ∧
    ∀ b ∈ updateAppt (updateAppt store i (fun x => x.assign_technician X n1)) i
        (fun x => x.assign_technician Y n2),
      b.id = i → b.assigned_technician = some Y := by
  have hYX : Y ≠ X := fun h => hXY h.symm
  have hmem1 : A.assign_technician X n1 ∈
      updateAppt store i (fun x => x.assign_technician X n1) :=
    updateAppt_mem_of_mem store i _ A hmem hid
  have hone1 : (updateAppt store i (fun x => x.assign_technician X n1)).countP
      (fun x => x.id == i) = 1 := by
    rw [countP_id_updateAppt store i (fun x => x.assign_technician X n1)
      (fun x => rfl)]
    exact hone
  have hid1 : ((A.assign_technician X n1).id == i) = true := by
    simp [Appointment.assign_technician, hid]
  have hA1stat : (A.assign_technician X n1).status = Status.assigned := by
    simp [Appointment.assign_technician, hstat]
  refine ⟨?_, ?_, ?_⟩
  · have hkey := countP_updateAppt
      (updateAppt store i (fun x => x.assign_technician X n1)) i
      (fun x => x.assign_technician Y n2) (isActiveFor X)
    simp only [] at hkey
    have h1 : (updateAppt store i (fun x => x.assign_technician X n1)).countP
        (fun x => x.id == i && isActiveFor X x) = 1 := by
      rw [countP_single_elem _ _ _ (A.assign_technician X n1) hmem1 hid1 hone1]
      simp [isActiveFor, Appointment.assign_technician, hA1stat, hstat]
    have h2 : (updateAppt store i (fun x => x.assign_technician X n1)).countP
        (fun x => x.id == i && isActiveFor X (x.assign_technician Y n2)) = 0 := by
      rw [countP_single_elem _ _ _ (A.assign_technician X n1) hmem1 hid1 hone1]
      have hfalse : isActiveFor X
          ((A.assign_technician X n1).assign_technician Y n2) = false := by
        simp [isActiveFor, Appointment.assign_technician, hYX]
      rw [hfalse]
      rfl
    rw [workload_count_eq_countP, workload_count_eq_countP]
    omega
  · have hkey := countP_updateAppt
      (updateAppt store i (fun x => x.assign_technician X n1)) i
      (fun x => x.assign_technician Y n2) (isActiveFor Y)
    simp only [] at hkey
    have h1 : (updateAppt store i (fun x => x.assign_technician X n1)).countP
        (fun x => x.id == i && isActiveFor Y x) = 0 := by
      rw [countP_single_elem _ _ _ (A.assign_technician X n1) hmem1 hid1 hone1]
      have hfalse : isActiveFor Y (A.assign_technician X n1) = false := by
        simp [isActiveFor, Appointment.assign_technician, hXY]
      rw [hfalse]
      rfl
    have h2 : (updateAppt store i (fun x => x.assign_technician X n1)).countP
        (fun x => x.id == i && isActiveFor Y (x.assign_technician Y n2)) = 1 := by
      rw [countP_single_elem _ _ _ (A.assign_technician X n1) hmem1 hid1 hone1]
      have htrue : isActiveFor Y
          ((A.assign_technician X n1).assign_technician Y n2) = true := by
        simp [isActiveFor, Appointment.assign_technician, hstat]
      rw [htrue]
      rfl
    rw [workload_count_eq_countP, workload_count_eq_countP]
    omega
  · intro b hb hbid
    have hb' : b ∈ updateAppt (updateAppt store i (fun x => x.assign_technician X n1)) i
        (fun x => x.assign_technician Y n2) := hb
    rcases mem_updateAppt _ _ _ _ hb' with ⟨x, _, hbx⟩
    by_cases hxi : (x.id == i) = true
    · rw [if_pos hxi] at hbx
      rw [hbx]
      rfl
    · rw [if_neg hxi] at hbx
      rw [hbx] at hbid
      exact absurd (by simp [hbid]) hxi

/-- Closed instance of C7: reassigning the single assigned appointment from
technician 1 to technician 2. -/
theorem C7_reassignment_load_witness :
    workload_count
        (updateAppt (updateAppt [⟨7, 0, none, none, none, none, Status.assigned⟩] 7
            (fun x => x.assign_technician 1 5)) 7
          (fun x => x.assign_technician 2 6)) 1 + 1 =
      workload_count
        (updateAppt [⟨7, 0, none, none, none, none, Status.assigned⟩] 7
          (fun x => x.assign_technician 1 5)) 1 ∧
    workload_count
        (updateAppt (updateAppt [⟨7, 0, none, none, none, none, Status.assigned⟩] 7
            (fun x => x.assign_technician 1 5)) 7
          (fun x => x.assign_technician 2 6)) 2 =
      workload_count
        (updateAppt [⟨7, 0, none, none, none, none, Status.assigned⟩] 7
          (fun x => x.assign_technician 1 5)) 2 + 1 :=
  ⟨(C7_reassignment_load [⟨7, 0, none, none, none, none, Status.assigned⟩] 7 1 2
      ⟨7, 0, none, none, none, none, Status.assigned⟩ 5 6
      (by decide) (by decide) (by decide) (by decide) (by decide)).1,
   (C7_reassignment_load [⟨7, 0, none, none, none, none, Status.assigned⟩] 7 1 2
      ⟨7, 0, none, none, none, none, Status.assigned⟩ 5 6
      (by decide) (by decide) (by decide) (by decide) (by decide)).2.1⟩

/-- C10: for a completed or cancelled appointment and an available
technician the assign view is accepted anyway — no status precondition is
checked: it overwrites the technician, re-stamps `assigned_at`, leaves the
terminal status unchanged, and leaves the technician's current load exactly
as it was, because terminal appointments are not counted as active. -/
theorem C10_assign_terminal (store : List Appointment) (i : Nat)
    (A : Appointment) (technician : Employee) (now : Nat)
    (hfind : findAppt store i = some A)
    (hone : store.countP (fun x => x.id == i) = 1)
    (hterm : A.status = Status.completed ∨ A.status = Status.cancelled)
    (hav : workload_count store technician.id < 3) :
    (assign_technician_view store i technician now).2 =
      Except.ok { assigned_at := now, status := A.status.toStr,
                  previous_status := "scheduled" } ∧
    (∀ b ∈ (assign_technician_view store i technician now).1, b.id = i →
      b.assigned_technician = some technician.id ∧ b.assigned_at = some now ∧
      b.status = A.status) ∧
    workload_count (assign_technician_view store i technician now).1 technician.id =
      workload_count store technician.id := by
  have hfind' : store.find? (fun a => a.id == i) = some A := hfind
  have hmem : A ∈ store := List.mem_of_find?_eq_some hfind'
  have hidb : (A.id == i) = true := by
    have h := List.find?_some hfind'
    exact h
  have hid : A.id = i := by simpa using hidb
  have hnp : A.status ≠ Status.pending := by
    rcases hterm with h | h <;> rw [h] <;> intro hc <;> cases hc
  have hAstat : (A.assign_technician technician.id now).status = A.status := by
    simp [Appointment.assign_technician, hnp]
  have havb : is_available store technician.id = true := by
    simp only [is_available, decide_eq_true_eq]
    exact hav
  rw [assign_view_eq store i technician now A hfind, if_pos havb]
  refine ⟨?_, ?_, ?_⟩
  · show Except.ok
        ({ assigned_at := now,
           status := (A.assign_technician technician.id now).status.toStr,
           previous_status := "scheduled" } : AssignDetails) =
      Except.ok
        ({ assigned_at := now, status := A.status.toStr,
           previous_status := "scheduled" } : AssignDetails)
    rw [hAstat]
  · intro b hb hbid
    have hb' : b ∈ updateAppt store i
        (fun x => x.assign_technician technician.id now) := hb
    rcases mem_updateAppt _ _ _ _ hb' with ⟨x, hx, hbx⟩
    by_cases hxi : (x.id == i) = true
    · rw [if_pos hxi] at hbx
      have hxA : x = A :=
        countP_one_unique store (fun z => z.id == i) A x hmem hidb hone hx hxi
      rw [hbx, hxA]
      exact ⟨rfl, rfl, hAstat⟩
    · rw [if_neg hxi] at hbx
      rw [hbx] at hbid
      exact absurd (by simp [hbid]) hxi
  · show workload_count
        (updateAppt store i (fun x => x.assign_technician technician.id now))
        technician.id = workload_count store technician.id
    have hkey := countP_updateAppt store i
      (fun x => x.assign_technician technician.id now) (isActiveFor technician.id)
    simp only [] at hkey
    have h1 : store.countP
        (fun x => x.id == i && isActiveFor technician.id x) = 0 := by
      rw [countP_single_elem store (fun x => x.id == i)
        (isActiveFor technician.id) A hmem hidb hone]
      have hfalse : isActiveFor technician.id A = false := by
        rcases hterm with h | h <;> simp [isActiveFor, h]
      rw [hfalse]
      rfl
    have h2 : store.countP
        (fun x => x.id == i &&
          isActiveFor technician.id (x.assign_technician technician.id now)) = 0 := by
      rw [countP_single_elem store (fun x => x.id == i)
        (fun x => isActiveFor technician.id (x.assign_technician technician.id now))
        A hmem hidb hone]
      have hfalse : isActiveFor technician.id
          (A.assign_technician technician.id now) = false := by
        rcases hterm with h | h <;>
          simp [isActiveFor, Appointment.assign_technician, h]
      rw [hfalse]
      rfl
    rw [workload_count_eq_countP, workload_count_eq_countP]
    omega

/-- Closed instance of C10: assigning a completed appointment to an
available technician is accepted, keeps the status `completed`, and leaves
the technician's load at 0. -/
theorem C10_assign_terminal_witness :
    (assign_technician_view [⟨3, 0, some 1, some 1, some 2, some 3, Status.completed⟩]
        3 ⟨2, "Kim", "Technician"⟩ 8).2 =
      Except.ok { assigned_at := 8, status := Status.completed.toStr,
                  previous_status := "scheduled" } ∧
    workload_count
        (assign_technician_view [⟨3, 0, some 1, some 1, some 2, some 3, Status.completed⟩]
          3 ⟨2, "Kim", "Technician"⟩ 8).1 2 =
      workload_count [⟨3, 0, some 1, some 1, some 2, some 3, Status.completed⟩] 2 :=
  ⟨(C10_assign_terminal [⟨3, 0, some 1, some 1, some 2, some 3, Status.completed⟩] 3
      ⟨3, 0, some 1, some 1, some 2, some 3, Status.completed⟩ ⟨2, "Kim", "Technician"⟩ 8
      (by decide) (by decide) (by decide) (by decide)).1,
   (C10_assign_terminal [⟨3, 0, some 1, some 1, some 2, some 3, Status.completed⟩] 3
      ⟨3, 0, some 1, some 1, some 2, some 3, Status.completed⟩ ⟨2, "Kim", "Technician"⟩ 8
      (by decide) (by decide) (by decide) (by decide)).2.2⟩

/-- Counterexample to C4 as stated: a chronological sequence of the three
operations — assign, start, reassign, complete — yields an appointment with
`completed_at = some 4` but `assigned_at = some 3 > started_at = some 2`,
because reassignment re-stamps `assigned_at` after work has started. -/
theorem C4_counterexample :
    chronoFrom 0
      [(Op.assign 1, 1), (Op.start, 2), (Op.assign 2, 3), (Op.complete, 4)] = true ∧
    (run (freshAppointment 1 0)
      [(Op.assign 1, 1), (Op.start, 2), (Op.assign 2, 3),
       (Op.complete, 4)]).completed_at = some 4 ∧
    (run (freshAppointment 1 0)
      [(Op.assign 1, 1), (Op.start, 2), (Op.assign 2, 3),
       (Op.complete, 4)]).assigned_at = some 3 ∧
    (run (freshAppointment 1 0)
      [(Op.assign 1, 1), (Op.start, 2), (Op.assign 2, 3),
       (Op.complete, 4)]).started_at = some 2 ∧
    ¬(3 ≤ 2) := by
  refine ⟨by decide, by decide, by decide, by decide, by decide⟩

/-- C4 (amended): over every chronological trace of assign/startWork/
completeWork from a fresh appointment, no operation decreases an
already-set timestamp; and provided every assign happens while the
appointment is still `pending` or `assigned` (no reassignment after work
has started — the counterexample shows the ordering fails otherwise), once
`completed_at` is non-null the ordering
`assigned_at ≤ started_at ≤ completed_at` holds. -/
theorem C4_timestamp_ordering (i date : Nat) (tr : List (Op × Nat))
    (hch : chronoFrom 0 tr = true) :
    noDecrease (freshAppointment i date) tr = true ∧
    (assignEarly (freshAppointment i date) tr = true →
      ∀ tc, (run (freshAppointment i date) tr).completed_at = some tc →
        ∃ ta ts, (run (freshAppointment i date) tr).assigned_at = some ta ∧
          (run (freshAppointment i date) tr).started_at = some ts ∧
          ta ≤ ts ∧ ts ≤ tc) := by
  constructor
  · exact noDecrease_run tr (freshAppointment i date) 0
      (by simp [freshAppointment, tsBound]) (by simp [freshAppointment, tsBound])
      (by simp [freshAppointment, tsBound]) hch
  · intro hae tc hc
    have h := LifecycleInv_run tr (freshAppointment i date) 0
      (LifecycleInv_fresh i date) hch hae
    obtain ⟨hb1, hb2, hb3, hcan, hasg, hpa, hip, hcp⟩ := h
    cases hstat : (run (freshAppointment i date) tr).status with
    | pending =>
      rw [(hpa (Or.inl hstat)).2] at hc
      cases hc
    | assigned =>
      rw [(hpa (Or.inr hstat)).2] at hc
      cases hc
    | in_progress =>
      obtain ⟨ta, ts, _, _, _, hnone⟩ := hip hstat
      rw [hnone] at hc
      cases hc
    | completed =>
      obtain ⟨ta, ts, tc', hta, hts, htc, h1, h2⟩ := hcp hstat
      rw [htc] at hc
      injection hc with hc'
      exact ⟨ta, ts, hta, hts, h1, hc' ▸ h2⟩
    | cancelled => exact absurd hstat hcan

/-- Closed instance of the amended C4: the normal assign-start-complete
trace keeps its timestamps ordered and never decreases one. -/
theorem C4_timestamp_ordering_witness :
    chronoFrom 0 [(Op.assign 1, 1), (Op.start, 2), (Op.complete, 3)] = true ∧
    noDecrease (freshAppointment 1 0)
      [(Op.assign 1, 1), (Op.start, 2), (Op.complete, 3)] = true :=
  ⟨by decide,
   (C4_timestamp_ordering 1 0 [(Op.assign 1, 1), (Op.start, 2), (Op.complete, 3)]
      (by decide)).1⟩

/-- Counterexample to C8 as stated: an employee whose role is "Mechanic"
matches the technician/mechanic pattern (`is_technician` is true) yet the
workload summary, which filters on `role__icontains="technician"` only,
does not enumerate them: it reports zero technicians. -/
theorem C8_counterexample :
    Employee.is_technician ⟨1, "Bob", "Mechanic"⟩ = true ∧
    (technician_workload [⟨1, "Bob", "Mechanic"⟩] []).1.total_technicians = 0 := by
  refine ⟨by decide, by decide⟩

/-- C8 (amended): the workload-summary operation is a total function (it
succeeds on every input, including zero technicians), enumerates every
employee whose role contains "technician" case-insensitively (employees
matching only the "mechanic" half of the pattern are excluded), and returns
`total_technicians` equal to the number of enumerated employees,
`available_technicians` equal to the number of those that are available,
and `busy_technicians` equal to total minus available. -/
theorem C8_workload_summary (employees : List Employee)
    (store : List Appointment) :
    (technician_workload employees store).1.total_technicians =
      (employees.filter (fun e => icontains e.role "technician")).length ∧
    (technician_workload employees store).1.available_technicians =
      ((employees.filter (fun e => icontains e.role "technician")).filter
        (fun e => is_available store e.id)).length ∧
    (technician_workload employees store).1.busy_technicians =
      (technician_workload employees store).1.total_technicians -
        (technician_workload employees store).1.available_technicians := by
  refine ⟨?_, ?_, ?_⟩
  · simp [technician_workload]
  · simp only [technician_workload, List.filter_map]
    rw [List.length_map]
    rfl
  · rfl
